import Mathlib

/-!
Verification of the Markdown-to-sentence segmentation subsystem of the
mumble-embedding repository.

The development is a shallow embedding of the two core components:

* the Block Extractor (`src/lib/src/markdown.rs`), which turns a stream of
  Markdown parser events into `TextBlock`s, and
* the Sentence Transducer (`src/lib/src/text.rs`), which turns a `TextBlock`
  into a list of `(sentence, range)` pairs,

plus the driver `split_post_into_sentences` (`src/lib/src/posts.rs`).

The upstream Markdown parser (pulldown-cmark) is an external collaborator:
the embedding consumes its event stream directly, mirroring the fact that
`extract_text_blocks` only inspects `(Event, Range)` pairs produced by
`Parser::into_offset_iter`.

Rust panics (`unwrap`, `todo!`) are modelled by `Option`/`none`: a function
that can panic returns `none` exactly on the inputs on which the Rust code
panics.
-/

namespace Mumble

/-- Half-open interval of byte offsets, `core::ops::Range<usize>`.
The field `end` of the Rust struct is called `stop` here because `end` is a
Lean keyword. -/
structure Range where
  start : Nat
  stop : Nat
deriving DecidableEq, Repr

/-- `FragmentContent` from `src/lib/src/markdown.rs`. -/
inductive FragmentContent where
  | Text (s : String)
  | Code (s : String)
  | Url (s : String)
deriving DecidableEq, Repr

/-- `FragmentContent::text` from `src/lib/src/markdown.rs`. -/
def FragmentContent.text : FragmentContent → String
  | .Text text => text
  | .Code code => code
  | .Url url => url

/-- `FragmentContent::is_text` from `src/lib/src/markdown.rs`. -/
def FragmentContent.is_text : FragmentContent → Bool
  | .Text _ => true
  | _ => false

/-- `Fragment` from `src/lib/src/markdown.rs`: content plus input range. -/
abbrev Fragment := FragmentContent × Range

/-- `TextBlock` from `src/lib/src/markdown.rs`. -/
inductive TextBlock where
  | Text (fragments : List Fragment)
  | Code (language : Option String) (code : String) (range : Range)
deriving DecidableEq, Repr

/-- `CharExt::is_sentence_break` from `src/lib/src/text.rs`: the unambiguous
sentence terminators ('.' is excluded because it is nondeterministic). -/
def is_sentence_break (c : Char) : Bool :=
  c == '?' || c == '!' || c == ';' || c == '。' || c == '！' || c == '？'

/-- `char::is_ascii_whitespace` from the Rust standard library: space,
horizontal tab, line feed, form feed, carriage return. -/
def is_rust_ascii_whitespace (c : Char) : Bool :=
  c == ' ' || c == '\t' || c == '\n' || c == '\x0C' || c == '\r'

/-- `TokenType` from `src/lib/src/text.rs`. -/
inductive TokenType where
  | Character (ch : Char)
  | String (s : String)
  | SentenceBreak
deriving DecidableEq, Repr

/-- `Token` from `src/lib/src/text.rs`: a token and its range. -/
abbrev Token := TokenType × Range

/-- `TransducerState` from `src/lib/src/text.rs`. -/
inductive TransducerState where
  | Initial
  | Character
  | Whitespace (start : Nat)
  | PeriodAnd (start : Nat)
  | WhitespacePeriodAnd (w_start : Nat) (p_start : Nat)
deriving DecidableEq, Repr

namespace TransducerState

/-- `TransducerState::initial_next`. `pos` is `transducer.num_chars` at the
time of the call. -/
def initial_next (pos : Nat) (ch : Char) : TransducerState × List Token :=
  if is_rust_ascii_whitespace ch then
    -- ignores the leading whitespaces
    (.Initial, [])
  else
    (.Character, [(.Character ch, ⟨pos, pos + 1⟩)])

/-- `TransducerState::initial_next_string`. -/
def initial_next_string (pos : Nat) (text : String) :
    TransducerState × List Token :=
  (.Character, [(.String text, ⟨pos, pos + text.length⟩)])

/-- `TransducerState::initial_finish`. -/
def initial_finish : TransducerState × List Token :=
  (.Initial, [])

/-- `TransducerState::character_next`. -/
def character_next (pos : Nat) (ch : Char) : TransducerState × List Token :=
  if is_rust_ascii_whitespace ch then
    -- deters the output and squashes consecutive whitespaces
    (.Whitespace pos, [])
  else if ch == '.' then
    -- deters the output and determines if this is the end of the sentence
    (.PeriodAnd pos, [])
  else if is_sentence_break ch then
    -- determines this is the end of the sentence
    (.Initial,
      [(.Character ch, ⟨pos, pos + 1⟩),
       (.SentenceBreak, ⟨pos + 1, pos + 1⟩)])
  else
    (.Character, [(.Character ch, ⟨pos, pos + 1⟩)])

/-- `TransducerState::character_next_string`. -/
def character_next_string (pos : Nat) (text : String) :
    TransducerState × List Token :=
  (.Character, [(.String text, ⟨pos, pos + text.length⟩)])

/-- `TransducerState::character_finish`. -/
def character_finish : TransducerState × List Token :=
  (.Initial, [])

/-- `TransducerState::whitespace_next`.  The branch on an unambiguous
sentence terminator is a `todo!` macro in the source, i.e. a panic;
it is modelled by `none`. -/
def whitespace_next (start pos : Nat) (ch : Char) :
    Option (TransducerState × List Token) :=
  if is_rust_ascii_whitespace ch then
    -- deters the output and squashes consecutive whitespaces
    some (.Whitespace start, [])
  else if ch == '.' then
    -- deters the output and determines if this is the end of the sentence
    some (.WhitespacePeriodAnd start pos, [])
  else if is_sentence_break ch then
    none
  else
    some (.Character,
      [(.Character ' ', ⟨start, pos⟩),
       (.Character ch, ⟨pos, pos + 1⟩)])

/-- `TransducerState::whitespace_next_string`. -/
def whitespace_next_string (start pos : Nat) (text : String) :
    TransducerState × List Token :=
  (.Character,
    [(.Character ' ', ⟨start, pos⟩),
     (.String text, ⟨pos, pos + text.length⟩)])

/-- `TransducerState::whitespace_finish`. -/
def whitespace_finish (start pos : Nat) : TransducerState × List Token :=
  (.Initial, [(.Character ' ', ⟨start, pos⟩)])

/-- `TransducerState::period_and_next`. -/
def period_and_next (start pos : Nat) (ch : Char) :
    TransducerState × List Token :=
  if is_rust_ascii_whitespace ch then
    -- determines the end of the sentence and ignores subsequent whitespaces
    (.Initial,
      [(.Character '.', ⟨start, start + 1⟩),
       (.SentenceBreak, ⟨start + 1, start + 1⟩)])
  else
    -- cancels the end of the sentence
    (.Character,
      [(.Character '.', ⟨start, start + 1⟩),
       (.Character ch, ⟨pos, pos + 1⟩)])

/-- `TransducerState::period_and_next_string`. -/
def period_and_next_string (start pos : Nat) (text : String) :
    TransducerState × List Token :=
  -- cancels the end of the sentence
  (.Character,
    [(.Character '.', ⟨start, start + 1⟩),
     (.String text, ⟨pos, pos + text.length⟩)])

/-- `TransducerState::period_and_finish`. -/
def period_and_finish (start : Nat) : TransducerState × List Token :=
  (.Initial,
    [(.Character '.', ⟨start, start + 1⟩),
     (.SentenceBreak, ⟨start + 1, start + 1⟩)])

/-- `TransducerState::whitespace_period_and_next`. -/
def whitespace_period_and_next (w_start p_start pos : Nat) (ch : Char) :
    TransducerState × List Token :=
  if is_rust_ascii_whitespace ch then
    -- determines the end of the sentence, drops the preceding whitespace,
    -- and ignores the subsequent whitespaces
    (.Initial,
      [(.Character '.', ⟨p_start, p_start + 1⟩),
       (.SentenceBreak, ⟨p_start + 1, p_start + 1⟩)])
  else
    -- cancels the end of the sentence, leaves the preceding whitespace
    (.Character,
      [(.Character ' ', ⟨w_start, p_start⟩),
       (.Character '.', ⟨p_start, p_start + 1⟩),
       (.Character ch, ⟨pos, pos + 1⟩)])

/-- `TransducerState::whitespace_period_and_next_string`. -/
def whitespace_period_and_next_string (w_start p_start pos : Nat)
    (text : String) : TransducerState × List Token :=
  -- cancels the end of the sentence, leaves the preceding whitespace
  (.Character,
    [(.Character ' ', ⟨w_start, p_start⟩),
     (.Character '.', ⟨p_start, p_start + 1⟩),
     (.String text, ⟨pos, pos + text.length⟩)])

/-- `TransducerState::whitespace_period_and_finish`. -/
def whitespace_period_and_finish (p_start : Nat) :
    TransducerState × List Token :=
  -- drops the preceding whitespace
  (.Initial,
    [(.Character '.', ⟨p_start, p_start + 1⟩),
     (.SentenceBreak, ⟨p_start + 1, p_start + 1⟩)])

/-- `TransducerState::next`: transition on one character at position `pos`
(`transducer.num_chars`).  `none` models the `todo!` panic reachable from
the `Whitespace` state. -/
def next : TransducerState → Nat → Char →
    Option (TransducerState × List Token)
  | .Initial, pos, ch => some (initial_next pos ch)
  | .Character, pos, ch => some (character_next pos ch)
  | .Whitespace start, pos, ch => whitespace_next start pos ch
  | .PeriodAnd start, pos, ch => some (period_and_next start pos ch)
  | .WhitespacePeriodAnd w_start p_start, pos, ch =>
      some (whitespace_period_and_next w_start p_start pos ch)

/-- `TransducerState::next_string`: transition on an opaque string token at
position `pos`.  This path is total in the source. -/
def next_string : TransducerState → Nat → String →
    TransducerState × List Token
  | .Initial, pos, text => initial_next_string pos text
  | .Character, pos, text => character_next_string pos text
  | .Whitespace start, pos, text => whitespace_next_string start pos text
  | .PeriodAnd start, pos, text => period_and_next_string start pos text
  | .WhitespacePeriodAnd w_start p_start, pos, text =>
      whitespace_period_and_next_string w_start p_start pos text

/-- `TransducerState::finish`: finalization at end of block; `pos` is the
`num_chars` of the transducer performing the finalization. -/
def finish : TransducerState → Nat → TransducerState × List Token
  | .Initial, _ => initial_finish
  | .Character, _ => character_finish
  | .Whitespace start, pos => whitespace_finish start pos
  | .PeriodAnd start, _ => period_and_finish start
  | .WhitespacePeriodAnd _ p_start, _ => whitespace_period_and_finish p_start

end TransducerState

/-- The character loop of `segment_text` in `src/lib/src/text.rs`: feeds the
characters one by one through `Transducer::next`, which increments
`num_chars` after every character.  `none` propagates a transducer panic. -/
def segment_text_chars (state : TransducerState) (pos : Nat) :
    List Char → Option (List Token × TransducerState)
  | [] => some ([], state)
  | ch :: rest => do
      let (state, tokens) ← state.next pos ch
      let (tokens', state) ← segment_text_chars state (pos + 1) rest
      pure (tokens ++ tokens', state)

/-- `segment_text` from `src/lib/src/text.rs`: the transducer starts with
`num_chars = range.start` and consumes the characters of `text`. -/
def segment_text (state : TransducerState) (text : String) (range : Range) :
    Option (List Token × TransducerState) :=
  segment_text_chars state range.start text.data

/-- `pass_token_string` from `src/lib/src/text.rs`: a token string is not
split into sentences, but the transducer state may transition. -/
def pass_token_string (state : TransducerState) (text : String)
    (range : Range) : List Token × TransducerState :=
  let (state, tokens) := state.next_string range.start text
  (tokens, state)

/-- `segment_fragment` from `src/lib/src/text.rs`. -/
def segment_fragment (state : TransducerState) (fragment : Fragment) :
    Option (List Token × TransducerState) :=
  match fragment.1 with
  | .Text text => segment_text state text fragment.2
  | .Code code => some (pass_token_string state code fragment.2)
  | .Url url => some (pass_token_string state url fragment.2)

/-- The fragment fold of `extract_sentences_from_fragments`: threads the
transducer state through the fragments, concatenating the emitted tokens. -/
def segment_fragments (state : TransducerState) :
    List Fragment → Option (List Token × TransducerState)
  | [] => some ([], state)
  | fragment :: rest => do
      let (tokens, state) ← segment_fragment state fragment
      let (tokens', state) ← segment_fragments state rest
      pure (tokens ++ tokens', state)

/-- One step of the sentence-assembly fold in
`extract_sentences_from_fragments`: a `Character` or `String` token extends
the last open sentence (or opens the first one), a `SentenceBreak` opens a
new empty sentence at the break's range. -/
def assemble_token (sentences : List (String × Range)) (token : Token) :
    List (String × Range) :=
  match token with
  | (.Character ch, r) =>
      match sentences.getLast? with
      | some (sentence, range) =>
          sentences.dropLast ++ [(sentence.push ch, ⟨range.start, r.stop⟩)]
      | none => [(String.singleton ch, r)]
  | (.String s, r) =>
      match sentences.getLast? with
      | some (sentence, range) =>
          sentences.dropLast ++ [(sentence ++ s, ⟨range.start, r.stop⟩)]
      | none => [(s, r)]
  | (.SentenceBreak, r) => sentences ++ [("", r)]

/-- The sentence-assembly fold of `extract_sentences_from_fragments`. -/
def assemble (tokens : List Token) : List (String × Range) :=
  tokens.foldl assemble_token []

/-- `extract_sentences_from_fragments` from `src/lib/src/text.rs`: folds the
fragments through the transducer, finalizes it at the last fragment's range
end (`0` when there is no fragment), assembles the tokens into sentences,
and drops the empty sentences.  `none` models the panic reachable through
the transducer's `todo!`. -/
def extract_sentences_from_fragments (fragments : List Fragment) :
    Option (List (String × Range)) := do
  let (tokens, state) ← segment_fragments TransducerState.Initial fragments
  let finish_pos := ((fragments.getLast?).map (fun f => f.2.stop)).getD 0
  let (_, finish_tokens) := state.finish finish_pos
  let sentences := assemble (tokens ++ finish_tokens)
  pure (sentences.filter (fun s => !s.1.isEmpty))

/-- `extract_sentences` from `src/lib/src/text.rs`: a code block is treated
as a single sentence. -/
def extract_sentences : TextBlock → Option (List (String × Range))
  | .Text fragments => extract_sentences_from_fragments fragments
  | .Code _ code range => some [(code, range)]

/-- `CodeBlockKind` from pulldown-cmark (external collaborator): a fenced
code block carries its info string, an indented one carries nothing. -/
inductive CodeBlockKind where
  | Fenced (language : String)
  | Indented
deriving DecidableEq, Repr

/-- The pulldown-cmark `Tag`s consumed by the Block Extractor.  `Link`
carries only the destination URL and the title: the link type is never
inspected by the source.  `Other` stands for every remaining tag
(headings, tables, images, ...), all of which fall into the catch-all
match arms of the source. -/
inductive Tag where
  | Paragraph
  | CodeBlock (kind : CodeBlockKind)
  | BlockQuote
  | List (first_number : Option Nat)
  | Item
  | Link (url : String) (title : String)
  | Strikethrough
  | Strong
  | Emphasis
  | Other
deriving DecidableEq, Repr

/-- The pulldown-cmark `Event`s consumed by the Block Extractor.  `Other`
stands for every remaining event (rules, task list markers, footnote
references, ...), all of which fall into the catch-all match arms. -/
inductive Event where
  | Start (tag : Tag)
  | End (tag : Tag)
  | Text (s : String)
  | Code (s : String)
  | Html (s : String)
  | SoftBreak
  | HardBreak
  | Other
deriving DecidableEq, Repr

/-- Debug rendering of a tag, standing in for Rust's derived `Debug`
formatting used in error messages. -/
def Tag.describe : Tag → String
  | .Paragraph => "Paragraph"
  | .CodeBlock _ => "CodeBlock"
  | .BlockQuote => "BlockQuote"
  | .List _ => "List"
  | .Item => "Item"
  | .Link _ _ => "Link"
  | .Strikethrough => "Strikethrough"
  | .Strong => "Strong"
  | .Emphasis => "Emphasis"
  | .Other => "Other"

/-- Debug rendering of an event, standing in for Rust's derived `Debug`
formatting used in error messages. -/
def Event.describe : Event → String
  | .Start tag => "Start(" ++ tag.describe ++ ")"
  | .End tag => "End(" ++ tag.describe ++ ")"
  | .Text _ => "Text"
  | .Code _ => "Code"
  | .Html _ => "Html"
  | .SoftBreak => "SoftBreak"
  | .HardBreak => "HardBreak"
  | .Other => "Other"

/-- `Error` from `src/lib/src/error.rs`.  The payloads of the variants that
wrap external library errors are reduced to strings/status codes. -/
inductive Error where
  | InvalidData (msg : String)
  | InvalidContext (msg : String)
  | HttpError (status : Nat)
  | SerdeJsonError (msg : String)
  | ReqwestError (msg : String)
  | AwsSdkError (msg : String)
deriving DecidableEq, Repr

/-- Returns whether an error is the `InvalidContext` variant. -/
def Error.is_invalid_context : Error → Bool
  | .InvalidContext _ => true
  | _ => false

/-- Returns whether an error is the `InvalidData` variant. -/
def Error.is_invalid_data : Error → Bool
  | .InvalidData _ => true
  | _ => false

/-- `ParagraphType` from `src/lib/src/markdown.rs`. -/
inductive ParagraphType where
  | Paragraph
  | Item
deriving DecidableEq, Repr

/-- `TextBlockExtractorState` from `src/lib/src/markdown.rs`. -/
inductive TextBlockExtractorState where
  | Blank
  | Paragraph (paragraph_type : ParagraphType) (fragments : List Fragment)
  | CodeBlock (language : Option String) (code : Option String)
      (range : Range)
  | Link (fragments : List Fragment)
  | Strikethrough
deriving DecidableEq, Repr

/-- Debug rendering of an extractor state, standing in for Rust's derived
`Debug` formatting used in error messages. -/
def TextBlockExtractorState.describe : TextBlockExtractorState → String
  | .Blank => "Blank"
  | .Paragraph _ _ => "Paragraph"
  | .CodeBlock _ _ _ => "CodeBlock"
  | .Link _ => "Link"
  | .Strikethrough => "Strikethrough"

/-- `TextBlockExtractor` from `src/lib/src/markdown.rs`.  The head of
`state_stack` is the top of the Rust `Vec` stack. -/
structure TextBlockExtractor where
  state_stack : List TextBlockExtractorState
  text_blocks : List TextBlock
deriving DecidableEq, Repr

/-- `TextBlockExtractor::new`. -/
def TextBlockExtractor.new : TextBlockExtractor :=
  { state_stack := [.Blank], text_blocks := [] }

/-- The "concatenates contiguous text fragments, otherwise pushes a new
fragment" logic that the source inlines both in the `Event::Text` arm of
`paragraph_process_event` and in `paragraph_process_fragment`: when the
last fragment is a `Text`, the new text is appended to it and its range end
becomes `range.stop`; otherwise a new `Text` fragment is pushed. -/
def push_text_fragment (fragments : List Fragment) (text : String)
    (range : Range) : List Fragment :=
  match fragments.getLast? with
  | some last =>
      if last.1.is_text then
        fragments.dropLast ++
          [(FragmentContent.Text (last.1.text ++ text),
            ⟨last.2.start, range.stop⟩)]
      else
        fragments ++ [(FragmentContent.Text text, range)]
  | none => [(FragmentContent.Text text, range)]

/-- The `Event::SoftBreak` update of `paragraph_process_event`: appends a
line break to the last fragment unless it is a code fragment (the
fragment's range is left unchanged by the source). -/
def soft_break_update (fragments : List Fragment) : List Fragment :=
  match fragments.getLast? with
  | some last =>
      if last.1.is_text then
        fragments.dropLast ++
          [(FragmentContent.Text (last.1.text ++ "\n"), last.2)]
      else fragments
  | none => fragments

/-- `TextBlockExtractorState::paragraph_process_fragment`: feeds a fragment
collected inside a link back into a paragraph, applying the same
text-coalescing rule as direct `Text` events. -/
def TextBlockExtractorState.paragraph_process_fragment
    (paragraph_type : ParagraphType) (fragments : List Fragment)
    (extractor : TextBlockExtractor) (fragment : Fragment) :
    TextBlockExtractor :=
  let fragments :=
    match fragment.1 with
    | .Text text => push_text_fragment fragments text fragment.2
    | _ => fragments ++ [fragment]
  { extractor with
      state_stack :=
        .Paragraph paragraph_type fragments :: extractor.state_stack }

/-- `TextBlockExtractorState::process_fragment`: only a paragraph may
receive a fed-back fragment. -/
def TextBlockExtractorState.process_fragment
    (state : TextBlockExtractorState) (extractor : TextBlockExtractor)
    (fragment : Fragment) : Except Error TextBlockExtractor :=
  match state with
  | .Paragraph paragraph_type fragments =>
      .ok (paragraph_process_fragment paragraph_type fragments extractor
        fragment)
  | _ => .error (.InvalidContext
      ("nested fragment is not allowed in " ++ state.describe))

/-- `TextBlockExtractor::process_fragment`: pops the top state and lets it
process the fragment. -/
def TextBlockExtractor.process_fragment (extractor : TextBlockExtractor)
    (fragment : Fragment) : Except Error TextBlockExtractor :=
  match extractor.state_stack with
  | [] => .error (.InvalidContext
      "Markdown processing is in an undefined state")
  | state :: rest =>
      state.process_fragment { extractor with state_stack := rest } fragment

/-- `TextBlockExtractorState::blank_process_event`. -/
def TextBlockExtractorState.blank_process_event
    (extractor : TextBlockExtractor) (event : Event) (range : Range) :
    Except Error TextBlockExtractor :=
  match event with
  | .Start .Paragraph =>
      .ok { extractor with
        state_stack :=
          .Paragraph ParagraphType.Paragraph [] :: .Blank ::
            extractor.state_stack }
  | .Start (.CodeBlock kind) =>
      let language :=
        match kind with
        | .Fenced language => some language
        | .Indented => none
      .ok { extractor with
        state_stack :=
          .CodeBlock language none range :: .Blank ::
            extractor.state_stack }
  | .Start .BlockQuote =>
      -- processes a nested Markdown structure
      .ok { extractor with
        state_stack := .Blank :: .Blank :: extractor.state_stack }
  | .End .BlockQuote => .ok extractor
  | .Start (.List _) =>
      -- processes a nested Markdown structure
      .ok { extractor with
        state_stack := .Blank :: .Blank :: extractor.state_stack }
  | .End (.List _) => .ok extractor
  | .Start .Item =>
      .ok { extractor with
        state_stack :=
          .Paragraph ParagraphType.Item [] :: .Blank ::
            extractor.state_stack }
  | _ => .error (.InvalidContext
      ("Markdown content must start but got " ++ event.describe))

/-- `TextBlockExtractorState::paragraph_process_event`. -/
def TextBlockExtractorState.paragraph_process_event
    (paragraph_type : ParagraphType) (fragments : List Fragment)
    (extractor : TextBlockExtractor) (event : Event) (range : Range) :
    Except Error TextBlockExtractor :=
  match event with
  | .End .Paragraph =>
      match paragraph_type with
      | .Paragraph =>
          .ok { extractor with
            text_blocks := extractor.text_blocks ++ [.Text fragments] }
      | _ => .error (.InvalidContext
          ("paragraph end is expected but got " ++ event.describe))
  | .End .Item =>
      match paragraph_type with
      | .Item =>
          .ok { extractor with
            text_blocks := extractor.text_blocks ++ [.Text fragments] }
      | _ => .error (.InvalidContext
          ("item end is expected but got " ++ event.describe))
  | .HardBreak =>
      -- ends the current paragraph and starts the new one
      .ok { extractor with
        text_blocks := extractor.text_blocks ++ [.Text fragments]
        state_stack :=
          .Paragraph paragraph_type [] :: extractor.state_stack }
  | .Text text =>
      -- concatenates contiguous text fragments
      -- otherwise, pushes a new fragment
      .ok { extractor with
        state_stack :=
          .Paragraph paragraph_type (push_text_fragment fragments text range)
            :: extractor.state_stack }
  | .Code code | .Html code =>
      .ok { extractor with
        state_stack :=
          .Paragraph paragraph_type
              (fragments ++ [(FragmentContent.Code code, range)])
            :: extractor.state_stack }
  | .Start (.Link _ _) =>
      .ok { extractor with
        state_stack :=
          .Link [] :: .Paragraph paragraph_type fragments ::
            extractor.state_stack }
  | .Start .Strikethrough =>
      .ok { extractor with
        state_stack :=
          .Strikethrough :: .Paragraph paragraph_type fragments ::
            extractor.state_stack }
  | .Start .Strong | .End .Strong | .Start .Emphasis | .End .Emphasis =>
      -- decoration does not matter
      .ok { extractor with
        state_stack :=
          .Paragraph paragraph_type fragments :: extractor.state_stack }
  | .SoftBreak =>
      -- appends a line break to the last fragment unless it is a code
      -- fragment
      .ok { extractor with
        state_stack :=
          .Paragraph paragraph_type (soft_break_update fragments) ::
            extractor.state_stack }
  | _ => .error (.InvalidContext
      ("not implemented yet: " ++ event.describe))

/-- `TextBlockExtractorState::code_block_process_event`.  The event's range
is unused by the source (the code block keeps the range captured at its
start). -/
def TextBlockExtractorState.code_block_process_event
    (language : Option String) (code : Option String) (code_range : Range)
    (extractor : TextBlockExtractor) (event : Event) :
    Except Error TextBlockExtractor :=
  match event with
  | .End (.CodeBlock _) =>
      match code with
      | some code =>
          .ok { extractor with
            text_blocks :=
              extractor.text_blocks ++ [.Code language code code_range] }
      | none => .error (.InvalidContext "code block must have a code")
  | .Text new_code =>
      match code with
      | none =>
          .ok { extractor with
            state_stack :=
              .CodeBlock language (some new_code) code_range ::
                extractor.state_stack }
      | some _ => .error (.InvalidContext "code block has multiple code")
  | _ => .error (.InvalidContext
      ("not implemented yet: " ++ event.describe))

/-- `TextBlockExtractorState::link_process_event`.  On end-of-link, when no
fragment was collected, one fragment is synthesized from the title (or the
URL when the title is empty); every collected fragment is then fed into the
parent state via `process_fragment`. -/
def TextBlockExtractorState.link_process_event (fragments : List Fragment)
    (extractor : TextBlockExtractor) (event : Event) (range : Range) :
    Except Error TextBlockExtractor :=
  match event with
  | .End (.Link url title) =>
      -- replaced with `url` or `title` if the link tag has no contents.
      -- `title` precedes `url` unless it is empty
      let fragments :=
        if fragments.isEmpty then
          if title.isEmpty then [(FragmentContent.Url url, range)]
          else [(FragmentContent.Text title, range)]
        else fragments
      fragments.foldlM (fun extractor fragment =>
        extractor.process_fragment fragment) extractor
  | .Text text =>
      .ok { extractor with
        state_stack :=
          .Link (fragments ++ [(FragmentContent.Text text, range)]) ::
            extractor.state_stack }
  | .Code code =>
      .ok { extractor with
        state_stack :=
          .Link (fragments ++ [(FragmentContent.Code code, range)]) ::
            extractor.state_stack }
  | _ => .error (.InvalidContext
      ("not implemented yet: " ++ event.describe))

/-- `TextBlockExtractorState::strikethrough_process_event`. -/
def TextBlockExtractorState.strikethrough_process_event
    (extractor : TextBlockExtractor) (event : Event) :
    Except Error TextBlockExtractor :=
  match event with
  | .End .Strikethrough => .ok extractor
  | .Text _ | .Code _ =>
      .ok { extractor with
        state_stack := .Strikethrough :: extractor.state_stack }
  | _ => .error (.InvalidContext
      ("not allowed in strikethrough: " ++ event.describe))

/-- `TextBlockExtractorState::process_event`: dispatches on the state. -/
def TextBlockExtractorState.process_event (state : TextBlockExtractorState)
    (extractor : TextBlockExtractor) (event : Event) (range : Range) :
    Except Error TextBlockExtractor :=
  match state with
  | .Blank => blank_process_event extractor event range
  | .Paragraph paragraph_type fragments =>
      paragraph_process_event paragraph_type fragments extractor event range
  | .CodeBlock language code code_range =>
      code_block_process_event language code code_range extractor event
  | .Link fragments => link_process_event fragments extractor event range
  | .Strikethrough => strikethrough_process_event extractor event

/-- `TextBlockExtractor::process_event`: pops the top state and lets it
process the event. -/
def TextBlockExtractor.process_event (extractor : TextBlockExtractor)
    (event : Event) (range : Range) : Except Error TextBlockExtractor :=
  match extractor.state_stack with
  | [] => .error (.InvalidContext
      "Markdown processing is in an undefined state")
  | state :: rest =>
      state.process_event { extractor with state_stack := rest } event range

/-- `TextBlockExtractor::finish`: succeeds exactly when the state stack
holds a single `Blank` frame, returning the collected blocks. -/
def TextBlockExtractor.finish (extractor : TextBlockExtractor) :
    Except Error (List TextBlock) :=
  match extractor.state_stack with
  | [] => .error (.InvalidContext
      "Markdown processing is in an undefined state")
  | .Blank :: rest =>
      if rest.isEmpty then .ok extractor.text_blocks
      else .error (.InvalidContext "Markdown processing prematurely ended")
  | _ :: _ =>
      .error (.InvalidContext "Markdown processing prematurely ended")

/-- The event loop of `extract_text_blocks`: processes the events of the
stream in order, aborting on the first error. -/
def run_events (events : List (Event × Range)) :
    Except Error TextBlockExtractor :=
  events.foldlM (fun extractor er => extractor.process_event er.1 er.2)
    TextBlockExtractor.new

/-- `extract_text_blocks` from `src/lib/src/markdown.rs`, taken over the
event stream that pulldown-cmark (an external collaborator) produces for
the Markdown text. -/
def extract_text_blocks (events : List (Event × Range)) :
    Except Error (List TextBlock) :=
  (run_events events).bind TextBlockExtractor.finish

/-- The composition of the two pipeline stages: extracts the text blocks
and flat-maps `extract_sentences` over them, mirroring the body of
`split_post_into_sentences` in `src/lib/src/posts.rs`.  `none` models a
panic: the `unwrap` on the extraction result or the transducer's `todo!`. -/
def pipeline_sentences (events : List (Event × Range)) :
    Option (List (String × Range)) :=
  match extract_text_blocks events with
  | .error _ => none
  | .ok blocks => do
      let sentences ← blocks.mapM extract_sentences
      pure sentences.flatten

/-- `PostSource` from `src/lib/src/posts.rs`.  The Markdown content is
represented by the event stream the external parser produces for it. -/
structure PostSource where
  content : List (Event × Range)
  media_type : String

/-- `Post` from `src/lib/src/posts.rs`, with Markdown contents represented
by their parser event streams. -/
structure Post where
  id : String
  type_ : String
  content : List (Event × Range)
  published : String
  source : Option PostSource

/-- The content selection at the top of `split_post_into_sentences`: the
source content when present, the post content otherwise. -/
def Post.effective_content (post : Post) : List (Event × Range) :=
  match post.source with
  | some source => source.content
  | none => post.content

/-- `PostSentence` from `src/lib/src/posts.rs`. -/
structure PostSentence where
  post_id : String
  content : String
  range : Range
deriving DecidableEq, Repr

/-- `split_post_into_sentences` from `src/lib/src/posts.rs`.  The source
calls `.unwrap()` on the extraction result, so an extraction error panics:
`none` models the panic (the transducer's `todo!` panic propagates the same
way). -/
def split_post_into_sentences (post : Post) : Option (List PostSentence) :=
  match extract_text_blocks post.effective_content with
  | .error _ => none
  | .ok blocks => do
      let sentences ← blocks.mapM extract_sentences
      pure (sentences.flatten.map (fun s =>
        { post_id := post.id, content := s.1, range := s.2 }))

/-- Discriminator for the sentence-break token. -/
def TokenType.is_break_token : TokenType → Bool
  | .SentenceBreak => true
  | _ => false

/-- Returns whether an extraction result is an `InvalidData` error. -/
def result_is_invalid_data (result : Except Error (List TextBlock)) : Bool :=
  match result with
  | .error e => e.is_invalid_data
  | .ok _ => false

/-- The event stream pulldown-cmark produces for the one-paragraph input
"Hello. World!" (13 bytes): a paragraph containing a single text event. -/
def hello_world_events : List (Event × Range) :=
  [(Event.Start Tag.Paragraph, ⟨0, 13⟩),
   (Event.Text "Hello. World!", ⟨0, 13⟩),
   (Event.End Tag.Paragraph, ⟨0, 13⟩)]

/-- The event stream of a fenced code block that terminates without a body
(no `Text` event between start and end), as pulldown-cmark produces for an
empty fenced block. -/
def empty_code_block_events : List (Event × Range) :=
  [(Event.Start (Tag.CodeBlock (CodeBlockKind.Fenced "rust")), ⟨0, 12⟩),
   (Event.End (Tag.CodeBlock (CodeBlockKind.Fenced "rust")), ⟨0, 12⟩)]

/-- The event stream pulldown-cmark produces for the input
"\<unnamed\> panicked at" (the second unit test of
`src/lib/src/markdown.rs`): an inline HTML event followed by a text
event. -/
def unnamed_panicked_events : List (Event × Range) :=
  [(Event.Start Tag.Paragraph, ⟨0, 21⟩),
   (Event.Html "<unnamed>", ⟨0, 9⟩),
   (Event.Text " panicked at", ⟨9, 21⟩),
   (Event.End Tag.Paragraph, ⟨0, 21⟩)]

/-- A post whose (source-less) content is an event stream that makes
`extract_text_blocks` fail: the stream opens with an event that is not a
legal start of content. -/
def bad_post : Post :=
  { id := "post-1", type_ := "Note", content := [(Event.Other, ⟨0, 0⟩)],
    published := "2023-01-01", source := none }

/-- Two adjacent fragments are not both plain text. -/
def separated_texts (a b : Fragment) : Prop :=
  (a.1.is_text && b.1.is_text) = false

/-- No two adjacent fragments of the list are both plain `Text`
fragments. -/
def Coalesced (fragments : List Fragment) : Prop :=
  List.Chain' separated_texts fragments

/-- The coalescing invariant on one extractor stack frame: every
`Paragraph` frame holds a coalesced fragment list. -/
def state_coalesced : TextBlockExtractorState → Prop
  | .Paragraph _ fragments => Coalesced fragments
  | _ => True

/-- The coalescing invariant on an emitted block. -/
def block_coalesced : TextBlock → Prop
  | .Text fragments => Coalesced fragments
  | .Code _ _ _ => True

/-- The coalescing invariant on the whole extractor. -/
def extractor_coalesced (extractor : TextBlockExtractor) : Prop :=
  (∀ s ∈ extractor.state_stack, state_coalesced s) ∧
  (∀ b ∈ extractor.text_blocks, block_coalesced b)

/-- An extractor step result is either a success or an `InvalidContext`
error (`markdown.rs` constructs no other error variant). -/
def ok_or_invalid_context (result : Except Error TextBlockExtractor) :
    Prop :=
  (∃ extractor, result = .ok extractor) ∨
  ∃ msg, result = .error (Error.InvalidContext msg)

-- ## Theorems

/-- C1 (counterexample): on the event stream of "Hello. World!", the
pipeline does NOT yield the sentences ("Hello.", 0..6) and
("World!", 7..13) claimed by the spec: the second range is wrong. -/
theorem hello_world_claimed_ranges_false :
    pipeline_sentences hello_world_events ≠
      some [("Hello.", ⟨0, 6⟩), ("World!", ⟨7, 13⟩)] := by
  decide

/-- C1 (amended): on the event stream of "Hello. World!", the pipeline
yields exactly the sentences ("Hello.", 0..6) and ("World!", 6..13): the
second sentence's range starts at offset 6, where the zero-width
sentence-break marker is placed (immediately after the terminating
period), not at offset 7 where 'W' sits. -/
theorem hello_world_pipeline_sentences :
    pipeline_sentences hello_world_events =
      some [("Hello.", ⟨0, 6⟩), ("World!", ⟨6, 13⟩)] := by
  decide

/-- C2: for every `Code` block, `extract_sentences` returns exactly one
sentence whose text is the block's code and whose range is the block's
range. -/
theorem code_block_single_sentence (language : Option String)
    (code : String) (range : Range) :
    extract_sentences (TextBlock.Code language code range) =
      some [(code, range)] := rfl

/-- C3: in every transducer state, an opaque string token (the content of a
`Code` or `Url` fragment, routed through `next_string`) never produces a
`SentenceBreak` token, and the string itself is always delivered as the
single, final `String` token of the transition's output, so its content
lands wholly inside one sentence. -/
theorem opaque_string_never_breaks (state : TransducerState) (pos : Nat)
    (text : String) :
    ((state.next_string pos text).2.map Prod.fst).any
        TokenType.is_break_token = false ∧
    ((state.next_string pos text).2.map Prod.fst).getLast? =
      some (TokenType.String text) := by
  cases state <;> exact ⟨rfl, rfl⟩

/-- C4: the `Whitespace` state transition on an unambiguous sentence
terminator is a `todo!` panic in the source (modelled by `none`), so it is
not the total, terminator-preserving transition the claim describes;
the panic propagates to `extract_sentences`, exercised here on the block
"a ?". -/
theorem whitespace_terminator_is_todo :
    TransducerState.next (TransducerState.Whitespace 1) 2 '?' = none ∧
    extract_sentences
      (TextBlock.Text [(FragmentContent.Text "a ?", ⟨0, 3⟩)]) = none := by
  exact ⟨rfl, rfl⟩

/-- C7 (counterexample): a code block context that terminates without a
body makes `extract_text_blocks` fail with an `InvalidContext` error, not
with the `InvalidData` error the claim names. -/
theorem empty_code_block_not_invalid_data :
    result_is_invalid_data (extract_text_blocks empty_code_block_events) =
      false ∧
    extract_text_blocks empty_code_block_events =
      .error (.InvalidContext "code block must have a code") := by
  exact ⟨rfl, rfl⟩

/-- C7 (amended): in every surrounding extractor state, ending a code block
context whose body is still unset yields the `InvalidContext` error
"code block must have a code". -/
theorem code_block_without_body_invalid_context (language : Option String)
    (code_range : Range) (extractor : TextBlockExtractor)
    (kind : CodeBlockKind) :
    TextBlockExtractorState.code_block_process_event language none
        code_range extractor (Event.End (Tag.CodeBlock kind)) =
      .error (.InvalidContext "code block must have a code") := rfl

/-- C8 (counterexample): a `Code` block whose code is the empty string
yields the empty string as its single sentence: the empty-sentence filter
runs only on the fragments path, so the claim fails for this input
block. -/
theorem empty_code_block_empty_sentence :
    extract_sentences (TextBlock.Code none "" ⟨0, 0⟩) =
      some [("", ⟨0, 0⟩)] ∧
    ((extract_sentences (TextBlock.Code none "" ⟨0, 0⟩)).getD []).all
      (fun s => !s.1.isEmpty) = false := by
  exact ⟨rfl, rfl⟩

/-- C8 (amended): for every `Text` block, no sentence returned by
`extract_sentences` is the empty string: empty candidate buffers, including
one opened by a `SentenceBreak` with nothing appended after it, are dropped
from the output.  (A `Code` block instead returns its code verbatim, which
is empty exactly when the code string is.) -/
theorem text_block_sentences_nonempty (fragments : List Fragment) :
    ((extract_sentences (TextBlock.Text fragments)).getD []).all
      (fun s => !s.1.isEmpty) = true := by
  have key : ∀ l : List (String × Range),
      (l.filter (fun s => !s.1.isEmpty)).all (fun s => !s.1.isEmpty) =
        true := by
    intro l
    rw [List.all_eq_true]
    intro x hx
    exact (List.mem_filter.mp hx).2
  simp only [extract_sentences, extract_sentences_from_fragments]
  cases h : segment_fragments TransducerState.Initial fragments with
  | none => rfl
  | some ts =>
      obtain ⟨tokens, state⟩ := ts
      simp [key]

/-- Binding a successful `Except` computation reduces to the
continuation. -/
theorem except_bind_ok {ε α β : Type} (a : α) (f : α → Except ε β) :
    (Except.ok a >>= f) = f a := rfl

/-- Binding a failed `Except` computation propagates the error. -/
theorem except_bind_error {ε α β : Type} (e : ε) (f : α → Except ε β) :
    ((Except.error e : Except ε α) >>= f) = Except.error e := rfl

/-- Folding a single-element list over an `Except`-valued step is the step
itself. -/
theorem except_foldlM_singleton {ε α β : Type} (f : β → α → Except ε β)
    (b : β) (a : α) : List.foldlM f b [a] = f b a := by
  show f b a >>= _ = f b a
  cases f b a <;> rfl

/-- C9: on end-of-link with attributes (url, title) and no collected
fragments, exactly one fragment is synthesized — `Text title` when the
title is non-empty, `Url url` otherwise — carrying the link's range, and it
is fed to the parent through `process_fragment`; moreover a `Text` event
processed by a paragraph is exactly `paragraph_process_fragment` applied to
the corresponding `Text` fragment, i.e. the same coalescing rule. -/
theorem link_end_synthesis_and_coalescing (url title : String)
    (range : Range) (extractor : TextBlockExtractor)
    (paragraph_type : ParagraphType) (fragments : List Fragment)
    (text : String) (r : Range) :
    TextBlockExtractorState.link_process_event [] extractor
        (Event.End (Tag.Link url title)) range =
      extractor.process_fragment
        ((if title.isEmpty then FragmentContent.Url url
          else FragmentContent.Text title), range) ∧
    TextBlockExtractorState.process_event
        (.Paragraph paragraph_type fragments) extractor (Event.Text text)
        r =
      .ok (TextBlockExtractorState.paragraph_process_fragment
        paragraph_type fragments extractor
        (FragmentContent.Text text, r)) := by
  constructor
  · show List.foldlM _ extractor
        (if title.isEmpty then [(FragmentContent.Url url, range)]
         else [(FragmentContent.Text title, range)]) = _
    cases h : title.isEmpty <;> simp [except_foldlM_singleton]
  · rfl

/-- C10: `split_post_into_sentences` unwraps the result of
`extract_text_blocks`, so whenever block extraction fails on the post's
effective content the function panics (modelled by `none`) instead of
returning or propagating the error, and it can return normally only when
block extraction succeeded. -/
theorem split_post_unwraps_extraction (post : Post) :
    (∀ e, extract_text_blocks post.effective_content = .error e →
      split_post_into_sentences post = none) ∧
    (∀ sentences, split_post_into_sentences post = some sentences →
      ∃ blocks,
        extract_text_blocks post.effective_content = .ok blocks) := by
  constructor
  · intro e he
    simp [split_post_into_sentences, he]
  · intro sentences hs
    unfold split_post_into_sentences at hs
    cases h : extract_text_blocks post.effective_content with
    | error e =>
        rw [h] at hs
        exact absurd hs (by simp)
    | ok blocks => exact ⟨blocks, rfl⟩

/-- Witness for C10: a post whose content opens with an illegal event makes
block extraction fail, and the driver indeed panics (returns `none`). -/
theorem split_post_unwraps_extraction_witness :
    split_post_into_sentences bad_post = none :=
  (split_post_unwraps_extraction bad_post).1
    (Error.InvalidContext "Markdown content must start but got Other") rfl

/-- `Except.bind` on a success reduces to the continuation. -/
theorem except_bind_ok_fn {ε α β : Type} (a : α) (f : α → Except ε β) :
    (Except.ok a).bind f = f a := rfl

/-- `Except.bind` on a failure propagates the error. -/
theorem except_bind_error_fn {ε α β : Type} (e : ε)
    (f : α → Except ε β) :
    (Except.error e : Except ε α).bind f = Except.error e := rfl

/-- `process_fragment` on a popped state either succeeds or fails with
`InvalidContext`. -/
theorem state_process_fragment_kind (state : TextBlockExtractorState)
    (extractor : TextBlockExtractor) (fragment : Fragment) :
    ok_or_invalid_context (state.process_fragment extractor fragment) := by
  cases state
  case Paragraph => exact .inl ⟨_, rfl⟩
  all_goals exact .inr ⟨_, rfl⟩

/-- `TextBlockExtractor::process_fragment` either succeeds or fails with
`InvalidContext`. -/
theorem extractor_process_fragment_kind (extractor : TextBlockExtractor)
    (fragment : Fragment) :
    ok_or_invalid_context (extractor.process_fragment fragment) := by
  obtain ⟨stack, blocks⟩ := extractor
  cases stack with
  | nil => exact .inr ⟨_, rfl⟩
  | cons s rest =>
      exact state_process_fragment_kind s ⟨rest, blocks⟩ fragment

/-- Feeding a list of fragments through `process_fragment` either succeeds
or fails with `InvalidContext`. -/
theorem foldlM_process_fragment_kind (fragments : List Fragment) :
    ∀ extractor : TextBlockExtractor,
    ok_or_invalid_context (fragments.foldlM
      (fun extractor fragment => extractor.process_fragment fragment)
      extractor) := by
  induction fragments with
  | nil => intro extractor; exact .inl ⟨extractor, rfl⟩
  | cons a l ih =>
      intro extractor
      rw [List.foldlM_cons]
      cases h : extractor.process_fragment a with
      | error e =>
          rw [except_bind_error]
          rcases extractor_process_fragment_kind extractor a with
            ⟨ex', hok⟩ | ⟨msg, herr⟩
          · rw [h] at hok
            exact absurd hok (by simp)
          · rw [h] at herr
            exact .inr ⟨msg, herr⟩
      | ok ex' =>
          rw [except_bind_ok]
          exact ih ex'

/-- `blank_process_event` either succeeds or fails with
`InvalidContext`. -/
theorem blank_process_event_kind (extractor : TextBlockExtractor)
    (event : Event) (range : Range) :
    ok_or_invalid_context
      (TextBlockExtractorState.blank_process_event extractor event
        range) := by
  cases event with
  | Start tag => cases tag <;>
      first | exact .inl ⟨_, rfl⟩ | exact .inr ⟨_, rfl⟩
  | End tag => cases tag <;>
      first | exact .inl ⟨_, rfl⟩ | exact .inr ⟨_, rfl⟩
  | Text s => exact .inr ⟨_, rfl⟩
  | Code s => exact .inr ⟨_, rfl⟩
  | Html s => exact .inr ⟨_, rfl⟩
  | SoftBreak => exact .inr ⟨_, rfl⟩
  | HardBreak => exact .inr ⟨_, rfl⟩
  | Other => exact .inr ⟨_, rfl⟩

/-- `paragraph_process_event` either succeeds or fails with
`InvalidContext`. -/
theorem paragraph_process_event_kind (paragraph_type : ParagraphType)
    (fragments : List Fragment) (extractor : TextBlockExtractor)
    (event : Event) (range : Range) :
    ok_or_invalid_context
      (TextBlockExtractorState.paragraph_process_event paragraph_type
        fragments extractor event range) := by
  cases event with
  | Start tag => cases tag <;>
      first | exact .inl ⟨_, rfl⟩ | exact .inr ⟨_, rfl⟩
  | End tag =>
      cases tag <;>
        try first | exact .inl ⟨_, rfl⟩ | exact .inr ⟨_, rfl⟩
      case Paragraph => cases paragraph_type <;>
        first | exact .inl ⟨_, rfl⟩ | exact .inr ⟨_, rfl⟩
      case Item => cases paragraph_type <;>
        first | exact .inl ⟨_, rfl⟩ | exact .inr ⟨_, rfl⟩
  | Text s => exact .inl ⟨_, rfl⟩
  | Code s => exact .inl ⟨_, rfl⟩
  | Html s => exact .inl ⟨_, rfl⟩
  | SoftBreak => exact .inl ⟨_, rfl⟩
  | HardBreak => exact .inl ⟨_, rfl⟩
  | Other => exact .inr ⟨_, rfl⟩

/-- `code_block_process_event` either succeeds or fails with
`InvalidContext`. -/
theorem code_block_process_event_kind (language : Option String)
    (code : Option String) (code_range : Range)
    (extractor : TextBlockExtractor) (event : Event) :
    ok_or_invalid_context
      (TextBlockExtractorState.code_block_process_event language code
        code_range extractor event) := by
  cases event with
  | Start tag => cases tag <;> exact .inr ⟨_, rfl⟩
  | End tag =>
      cases tag <;> try exact .inr ⟨_, rfl⟩
      case CodeBlock kind => cases code <;>
        first | exact .inl ⟨_, rfl⟩ | exact .inr ⟨_, rfl⟩
  | Text s => cases code <;>
      first | exact .inl ⟨_, rfl⟩ | exact .inr ⟨_, rfl⟩
  | Code s => exact .inr ⟨_, rfl⟩
  | Html s => exact .inr ⟨_, rfl⟩
  | SoftBreak => exact .inr ⟨_, rfl⟩
  | HardBreak => exact .inr ⟨_, rfl⟩
  | Other => exact .inr ⟨_, rfl⟩

/-- `link_process_event` either succeeds or fails with `InvalidContext`. -/
theorem link_process_event_kind (fragments : List Fragment)
    (extractor : TextBlockExtractor) (event : Event) (range : Range) :
    ok_or_invalid_context
      (TextBlockExtractorState.link_process_event fragments extractor
        event range) := by
  cases event with
  | Start tag => cases tag <;> exact .inr ⟨_, rfl⟩
  | End tag =>
      cases tag <;> try exact .inr ⟨_, rfl⟩
      case Link url title => exact foldlM_process_fragment_kind _ _
  | Text s => exact .inl ⟨_, rfl⟩
  | Code s => exact .inl ⟨_, rfl⟩
  | Html s => exact .inr ⟨_, rfl⟩
  | SoftBreak => exact .inr ⟨_, rfl⟩
  | HardBreak => exact .inr ⟨_, rfl⟩
  | Other => exact .inr ⟨_, rfl⟩

/-- `strikethrough_process_event` either succeeds or fails with
`InvalidContext`. -/
theorem strikethrough_process_event_kind (extractor : TextBlockExtractor)
    (event : Event) :
    ok_or_invalid_context
      (TextBlockExtractorState.strikethrough_process_event extractor
        event) := by
  cases event with
  | Start tag => cases tag <;> exact .inr ⟨_, rfl⟩
  | End tag => cases tag <;>
      first | exact .inl ⟨_, rfl⟩ | exact .inr ⟨_, rfl⟩
  | Text s => exact .inl ⟨_, rfl⟩
  | Code s => exact .inl ⟨_, rfl⟩
  | Html s => exact .inr ⟨_, rfl⟩
  | SoftBreak => exact .inr ⟨_, rfl⟩
  | HardBreak => exact .inr ⟨_, rfl⟩
  | Other => exact .inr ⟨_, rfl⟩

/-- `process_event` on a popped state either succeeds or fails with
`InvalidContext`. -/
theorem state_process_event_kind (state : TextBlockExtractorState)
    (extractor : TextBlockExtractor) (event : Event) (range : Range) :
    ok_or_invalid_context
      (state.process_event extractor event range) := by
  cases state with
  | Blank => exact blank_process_event_kind extractor event range
  | Paragraph paragraph_type fragments =>
      exact paragraph_process_event_kind paragraph_type fragments
        extractor event range
  | CodeBlock language code code_range =>
      exact code_block_process_event_kind language code code_range
        extractor event
  | Link fragments =>
      exact link_process_event_kind fragments extractor event range
  | Strikethrough =>
      exact strikethrough_process_event_kind extractor event

/-- `TextBlockExtractor::process_event` either succeeds or fails with
`InvalidContext`. -/
theorem extractor_process_event_kind (extractor : TextBlockExtractor)
    (event : Event) (range : Range) :
    ok_or_invalid_context (extractor.process_event event range) := by
  obtain ⟨stack, blocks⟩ := extractor
  cases stack with
  | nil => exact .inr ⟨_, rfl⟩
  | cons s rest =>
      exact state_process_event_kind s ⟨rest, blocks⟩ event range

/-- The whole event loop either succeeds or fails with
`InvalidContext`. -/
theorem run_events_kind (events : List (Event × Range)) :
    ok_or_invalid_context (run_events events) := by
  unfold run_events
  generalize TextBlockExtractor.new = extractor
  induction events generalizing extractor with
  | nil => exact .inl ⟨extractor, rfl⟩
  | cons er rest ih =>
      rw [List.foldlM_cons]
      cases h : extractor.process_event er.1 er.2 with
      | error e =>
          rw [except_bind_error]
          rcases extractor_process_event_kind extractor er.1 er.2 with
            ⟨ex', hok⟩ | ⟨msg, herr⟩
          · rw [h] at hok
            exact absurd hok (by simp)
          · rw [h] at herr
            exact .inr ⟨msg, herr⟩
      | ok ex' =>
          rw [except_bind_ok]
          exact ih ex'

/-- `TextBlockExtractor::finish` either succeeds or fails with
`InvalidContext`. -/
theorem finish_kind (extractor : TextBlockExtractor) :
    (∃ blocks, extractor.finish = .ok blocks) ∨
    ∃ msg, extractor.finish = .error (Error.InvalidContext msg) := by
  obtain ⟨stack, blocks⟩ := extractor
  cases stack with
  | nil => exact .inr ⟨_, rfl⟩
  | cons s rest =>
      cases s <;> try exact .inr ⟨_, rfl⟩
      case Blank =>
        cases rest with
        | nil => exact .inl ⟨_, rfl⟩
        | cons s2 r2 => exact .inr ⟨_, rfl⟩

/-- C6: every failure of `extract_text_blocks` — an event that is illegal
for the current context, or a stack different from a single `Blank` frame
after all events — is an `InvalidContext` error, and extraction succeeds
with a given block list exactly when the event loop ends with the stack
`[Blank]` and that block list (on failure no block list is returned, so
the partially built blocks are discarded). -/
theorem extraction_invalid_context_and_success (events :
    List (Event × Range)) :
    (∀ e, extract_text_blocks events = .error e →
      e.is_invalid_context = true) ∧
    (∀ blocks, extract_text_blocks events = .ok blocks ↔
      run_events events = .ok ⟨[TextBlockExtractorState.Blank], blocks⟩)
    := by
  constructor
  · intro e he
    unfold extract_text_blocks at he
    rcases run_events_kind events with ⟨ex, hok⟩ | ⟨msg, herr⟩
    · rw [hok, except_bind_ok_fn] at he
      rcases finish_kind ex with ⟨bs, hfin⟩ | ⟨msg, hfin⟩
      · rw [hfin] at he
        exact absurd he (by simp)
      · rw [hfin] at he
        injection he with h
        subst h
        rfl
    · rw [herr, except_bind_error_fn] at he
      injection he with h
      subst h
      rfl
  · intro blocks
    unfold extract_text_blocks
    cases hr : run_events events with
    | error e =>
        rw [except_bind_error_fn]
        simp
    | ok ex =>
        rw [except_bind_ok_fn]
        obtain ⟨stack, blks⟩ := ex
        cases stack with
        | nil => simp [TextBlockExtractor.finish]
        | cons s rest =>
            cases s <;> cases rest <;> simp [TextBlockExtractor.finish]

/-- Witness for C6: the empty stream extracts successfully (the stack ends
as a single `Blank` frame), and the error produced by an illegal first
event is an `InvalidContext`. -/
theorem extraction_invalid_context_and_success_witness :
    extract_text_blocks [] = Except.ok [] ∧
    (Error.InvalidContext
        "Markdown content must start but got Other").is_invalid_context =
      true :=
  ⟨((extraction_invalid_context_and_success []).2 []).mpr rfl,
   (extraction_invalid_context_and_success [(Event.Other, ⟨0, 0⟩)]).1
     (Error.InvalidContext "Markdown content must start but got Other")
     rfl⟩

/-- Appending a fragment that does not form an adjacent text pair with the
current last fragment preserves coalescing. -/
theorem coalesced_append {fragments : List Fragment} {f : Fragment}
    (h : Coalesced fragments)
    (hlast : ∀ l, fragments.getLast? = some l →
      (l.1.is_text && f.1.is_text) = false) :
    Coalesced (fragments ++ [f]) := by
  refine List.Chain'.append h (List.chain'_singleton f) ?_
  intro x hx y hy
  simp only [List.head?_cons, Option.mem_def, Option.some.injEq] at hy
  subst hy
  exact hlast x (Option.mem_def.mp hx)

/-- Replacing the last fragment with one that is text only when the old
last fragment was text preserves coalescing. -/
theorem coalesced_replace_last {fragments : List Fragment}
    {last f : Fragment} (h : Coalesced fragments)
    (hl : fragments.getLast? = some last)
    (himp : f.1.is_text = true → last.1.is_text = true) :
    Coalesced (fragments.dropLast ++ [f]) := by
  have hdecomp : fragments.dropLast ++ [last] = fragments :=
    List.dropLast_append_getLast? last (Option.mem_def.mpr hl)
  rw [← hdecomp] at h
  obtain ⟨h1, h2, h3⟩ := List.chain'_append.mp h
  refine List.Chain'.append h1 (List.chain'_singleton f) ?_
  intro x hx y hy
  simp only [List.head?_cons, Option.mem_def, Option.some.injEq] at hy
  subst hy
  show (x.1.is_text && f.1.is_text) = false
  cases hf : f.1.is_text with
  | false => simp
  | true =>
      have hlt : last.1.is_text = true := himp hf
      have hsep : (x.1.is_text && last.1.is_text) = false :=
        h3 x hx last (Option.mem_def.mpr rfl)
      rw [hlt, Bool.and_true] at hsep
      simp [hsep]

/-- Appending a non-text fragment preserves coalescing. -/
theorem coalesced_append_non_text {fragments : List Fragment}
    {f : Fragment} (h : Coalesced fragments) (hf : f.1.is_text = false) :
    Coalesced (fragments ++ [f]) :=
  coalesced_append h (fun l _ => by simp [hf])

/-- `push_text_fragment` preserves coalescing. -/
theorem coalesced_push_text {fragments : List Fragment} (text : String)
    (range : Range) (h : Coalesced fragments) :
    Coalesced (push_text_fragment fragments text range) := by
  unfold push_text_fragment
  split
  next last hl =>
    split
    next ht => exact coalesced_replace_last h hl (fun _ => ht)
    next ht =>
      rw [Bool.not_eq_true] at ht
      refine coalesced_append h (fun l hl' => ?_)
      rw [hl] at hl'
      injection hl' with hl'
      subst hl'
      simp [ht]
  next hl => exact List.chain'_singleton _

/-- `soft_break_update` preserves coalescing. -/
theorem coalesced_soft_break {fragments : List Fragment}
    (h : Coalesced fragments) :
    Coalesced (soft_break_update fragments) := by
  unfold soft_break_update
  split
  next last hl =>
    split
    next ht => exact coalesced_replace_last h hl (fun _ => ht)
    next ht => exact h
  next hl => exact h

/-- `process_fragment` on a popped state preserves the coalescing
invariant. -/
theorem state_process_fragment_coalesced {state : TextBlockExtractorState}
    {extractor result : TextBlockExtractor} {fragment : Fragment}
    (hst : state_coalesced state) (hex : extractor_coalesced extractor)
    (h : state.process_fragment extractor fragment = .ok result) :
    extractor_coalesced result := by
  cases state with
  | Paragraph paragraph_type fragments =>
      injection h with h
      subst h
      have hfr : Coalesced fragments := hst
      refine ⟨fun s hs => ?_, hex.2⟩
      rcases List.mem_cons.mp hs with rfl | hs
      · show Coalesced _
        obtain ⟨fc, fr⟩ := fragment
        cases fc with
        | Text text => exact coalesced_push_text text fr hfr
        | Code code => exact coalesced_append_non_text hfr rfl
        | Url url => exact coalesced_append_non_text hfr rfl
      · exact hex.1 s hs
  | Blank => exact Except.noConfusion h
  | CodeBlock language code range => exact Except.noConfusion h
  | Link fragments => exact Except.noConfusion h
  | Strikethrough => exact Except.noConfusion h

/-- `TextBlockExtractor::process_fragment` preserves the coalescing
invariant. -/
theorem extractor_process_fragment_coalesced
    {extractor result : TextBlockExtractor} {fragment : Fragment}
    (hex : extractor_coalesced extractor)
    (h : extractor.process_fragment fragment = .ok result) :
    extractor_coalesced result := by
  obtain ⟨stack, blocks⟩ := extractor
  cases stack with
  | nil => exact Except.noConfusion h
  | cons s rest =>
      have hex' : extractor_coalesced ⟨rest, blocks⟩ :=
        ⟨fun t ht => hex.1 t (List.mem_cons_of_mem s ht), hex.2⟩
      exact state_process_fragment_coalesced (hex.1 s (by simp)) hex' h

/-- Feeding fragments through `process_fragment` preserves the coalescing
invariant. -/
theorem foldlM_process_fragment_coalesced (fragments : List Fragment) :
    ∀ {extractor result : TextBlockExtractor},
    extractor_coalesced extractor →
    fragments.foldlM (fun extractor fragment =>
      extractor.process_fragment fragment) extractor = .ok result →
    extractor_coalesced result := by
  induction fragments with
  | nil =>
      intro extractor result hex h
      injection h with h
      subst h
      exact hex
  | cons a l ih =>
      intro extractor result hex h
      rw [List.foldlM_cons] at h
      cases ha : extractor.process_fragment a with
      | error e =>
          rw [ha, except_bind_error] at h
          exact Except.noConfusion h
      | ok ex' =>
          rw [ha, except_bind_ok] at h
          exact ih (extractor_process_fragment_coalesced hex ha) h

/-- `blank_process_event` preserves the coalescing invariant. -/
theorem blank_process_event_coalesced
    {extractor result : TextBlockExtractor} {event : Event}
    {range : Range} (hex : extractor_coalesced extractor)
    (h : TextBlockExtractorState.blank_process_event extractor event
      range = .ok result) :
    extractor_coalesced result := by
  cases event with
  | Start tag =>
      cases tag
      all_goals
        first
        | exact Except.noConfusion h
        | (injection h with h
           subst h
           refine ⟨fun s hs => ?_, hex.2⟩
           simp only [List.mem_cons] at hs
           rcases hs with rfl | rfl | hs <;>
             first
             | trivial
             | exact (List.chain'_nil : Coalesced [])
             | exact hex.1 s hs)
  | End tag =>
      cases tag
      all_goals
        first
        | exact Except.noConfusion h
        | (injection h with h
           subst h
           exact hex)
  | Text s => exact Except.noConfusion h
  | Code s => exact Except.noConfusion h
  | Html s => exact Except.noConfusion h
  | SoftBreak => exact Except.noConfusion h
  | HardBreak => exact Except.noConfusion h
  | Other => exact Except.noConfusion h

/-- `paragraph_process_event` preserves the coalescing invariant. -/
theorem paragraph_process_event_coalesced
    {paragraph_type : ParagraphType} {fragments : List Fragment}
    {extractor result : TextBlockExtractor} {event : Event}
    {range : Range} (hfr : Coalesced fragments)
    (hex : extractor_coalesced extractor)
    (h : TextBlockExtractorState.paragraph_process_event paragraph_type
      fragments extractor event range = .ok result) :
    extractor_coalesced result := by
  cases event with
  | End tag =>
      cases tag
      all_goals try exact Except.noConfusion h
      case Paragraph =>
        cases paragraph_type
        case Item => exact Except.noConfusion h
        case Paragraph =>
          injection h with h
          subst h
          refine ⟨hex.1, fun b hb => ?_⟩
          rcases List.mem_append.mp hb with hb | hb
          · exact hex.2 b hb
          · rw [List.mem_singleton.mp hb]
            exact hfr
      case Item =>
        cases paragraph_type
        case Paragraph => exact Except.noConfusion h
        case Item =>
          injection h with h
          subst h
          refine ⟨hex.1, fun b hb => ?_⟩
          rcases List.mem_append.mp hb with hb | hb
          · exact hex.2 b hb
          · rw [List.mem_singleton.mp hb]
            exact hfr
      case Strong =>
        injection h with h
        subst h
        refine ⟨fun s hs => ?_, hex.2⟩
        rcases List.mem_cons.mp hs with rfl | hs
        · exact hfr
        · exact hex.1 s hs
      case Emphasis =>
        injection h with h
        subst h
        refine ⟨fun s hs => ?_, hex.2⟩
        rcases List.mem_cons.mp hs with rfl | hs
        · exact hfr
        · exact hex.1 s hs
  | Start tag =>
      cases tag
      all_goals try exact Except.noConfusion h
      case Link url title =>
        injection h with h
        subst h
        refine ⟨fun s hs => ?_, hex.2⟩
        simp only [List.mem_cons] at hs
        rcases hs with rfl | rfl | hs
        · trivial
        · exact hfr
        · exact hex.1 s hs
      case Strikethrough =>
        injection h with h
        subst h
        refine ⟨fun s hs => ?_, hex.2⟩
        simp only [List.mem_cons] at hs
        rcases hs with rfl | rfl | hs
        · trivial
        · exact hfr
        · exact hex.1 s hs
      case Strong =>
        injection h with h
        subst h
        refine ⟨fun s hs => ?_, hex.2⟩
        rcases List.mem_cons.mp hs with rfl | hs
        · exact hfr
        · exact hex.1 s hs
      case Emphasis =>
        injection h with h
        subst h
        refine ⟨fun s hs => ?_, hex.2⟩
        rcases List.mem_cons.mp hs with rfl | hs
        · exact hfr
        · exact hex.1 s hs
  | Text text =>
      injection h with h
      subst h
      refine ⟨fun s hs => ?_, hex.2⟩
      rcases List.mem_cons.mp hs with rfl | hs
      · exact coalesced_push_text text range hfr
      · exact hex.1 s hs
  | Code code =>
      injection h with h
      subst h
      refine ⟨fun s hs => ?_, hex.2⟩
      rcases List.mem_cons.mp hs with rfl | hs
      · exact coalesced_append_non_text hfr rfl
      · exact hex.1 s hs
  | Html code =>
      injection h with h
      subst h
      refine ⟨fun s hs => ?_, hex.2⟩
      rcases List.mem_cons.mp hs with rfl | hs
      · exact coalesced_append_non_text hfr rfl
      · exact hex.1 s hs
  | SoftBreak =>
      injection h with h
      subst h
      refine ⟨fun s hs => ?_, hex.2⟩
      rcases List.mem_cons.mp hs with rfl | hs
      · exact coalesced_soft_break hfr
      · exact hex.1 s hs
  | HardBreak =>
      injection h with h
      subst h
      refine ⟨fun s hs => ?_, fun b hb => ?_⟩
      · rcases List.mem_cons.mp hs with rfl | hs
        · exact (List.chain'_nil : Coalesced [])
        · exact hex.1 s hs
      · rcases List.mem_append.mp hb with hb | hb
        · exact hex.2 b hb
        · rw [List.mem_singleton.mp hb]
          exact hfr
  | Other => exact Except.noConfusion h

/-- `code_block_process_event` preserves the coalescing invariant. -/
theorem code_block_process_event_coalesced {language : Option String}
    {code : Option String} {code_range : Range}
    {extractor result : TextBlockExtractor} {event : Event}
    (hex : extractor_coalesced extractor)
    (h : TextBlockExtractorState.code_block_process_event language code
      code_range extractor event = .ok result) :
    extractor_coalesced result := by
  cases event with
  | End tag =>
      cases tag
      all_goals try exact Except.noConfusion h
      case CodeBlock kind =>
        cases code with
        | none => exact Except.noConfusion h
        | some c =>
            injection h with h
            subst h
            refine ⟨hex.1, fun b hb => ?_⟩
            rcases List.mem_append.mp hb with hb | hb
            · exact hex.2 b hb
            · rw [List.mem_singleton.mp hb]
              trivial
  | Text s =>
      cases code with
      | some c => exact Except.noConfusion h
      | none =>
          injection h with h
          subst h
          refine ⟨fun t ht => ?_, hex.2⟩
          rcases List.mem_cons.mp ht with rfl | ht
          · trivial
          · exact hex.1 t ht
  | Start tag => cases tag <;> exact Except.noConfusion h
  | Code s => exact Except.noConfusion h
  | Html s => exact Except.noConfusion h
  | SoftBreak => exact Except.noConfusion h
  | HardBreak => exact Except.noConfusion h
  | Other => exact Except.noConfusion h

/-- `link_process_event` preserves the coalescing invariant. -/
theorem link_process_event_coalesced {fragments : List Fragment}
    {extractor result : TextBlockExtractor} {event : Event}
    {range : Range} (hex : extractor_coalesced extractor)
    (h : TextBlockExtractorState.link_process_event fragments extractor
      event range = .ok result) :
    extractor_coalesced result := by
  cases event with
  | End tag =>
      cases tag
      all_goals try exact Except.noConfusion h
      case Link url title =>
        exact foldlM_process_fragment_coalesced _ hex h
  | Text s =>
      injection h with h
      subst h
      refine ⟨fun t ht => ?_, hex.2⟩
      rcases List.mem_cons.mp ht with rfl | ht
      · trivial
      · exact hex.1 t ht
  | Code s =>
      injection h with h
      subst h
      refine ⟨fun t ht => ?_, hex.2⟩
      rcases List.mem_cons.mp ht with rfl | ht
      · trivial
      · exact hex.1 t ht
  | Start tag => cases tag <;> exact Except.noConfusion h
  | Html s => exact Except.noConfusion h
  | SoftBreak => exact Except.noConfusion h
  | HardBreak => exact Except.noConfusion h
  | Other => exact Except.noConfusion h

/-- `strikethrough_process_event` preserves the coalescing invariant. -/
theorem strikethrough_process_event_coalesced
    {extractor result : TextBlockExtractor} {event : Event}
    (hex : extractor_coalesced extractor)
    (h : TextBlockExtractorState.strikethrough_process_event extractor
      event = .ok result) :
    extractor_coalesced result := by
  cases event with
  | End tag =>
      cases tag
      all_goals try exact Except.noConfusion h
      case Strikethrough =>
        injection h with h
        subst h
        exact hex
  | Text s =>
      injection h with h
      subst h
      refine ⟨fun t ht => ?_, hex.2⟩
      rcases List.mem_cons.mp ht with rfl | ht
      · trivial
      · exact hex.1 t ht
  | Code s =>
      injection h with h
      subst h
      refine ⟨fun t ht => ?_, hex.2⟩
      rcases List.mem_cons.mp ht with rfl | ht
      · trivial
      · exact hex.1 t ht
  | Start tag => cases tag <;> exact Except.noConfusion h
  | Html s => exact Except.noConfusion h
  | SoftBreak => exact Except.noConfusion h
  | HardBreak => exact Except.noConfusion h
  | Other => exact Except.noConfusion h

/-- `process_event` on a popped state preserves the coalescing
invariant. -/
theorem state_process_event_coalesced {state : TextBlockExtractorState}
    {extractor result : TextBlockExtractor} {event : Event}
    {range : Range} (hst : state_coalesced state)
    (hex : extractor_coalesced extractor)
    (h : state.process_event extractor event range = .ok result) :
    extractor_coalesced result := by
  cases state with
  | Blank => exact blank_process_event_coalesced hex h
  | Paragraph paragraph_type fragments =>
      exact paragraph_process_event_coalesced hst hex h
  | CodeBlock language code code_range =>
      exact code_block_process_event_coalesced hex h
  | Link fragments => exact link_process_event_coalesced hex h
  | Strikethrough => exact strikethrough_process_event_coalesced hex h

/-- `TextBlockExtractor::process_event` preserves the coalescing
invariant. -/
theorem extractor_process_event_coalesced
    {extractor result : TextBlockExtractor} {event : Event}
    {range : Range} (hex : extractor_coalesced extractor)
    (h : extractor.process_event event range = .ok result) :
    extractor_coalesced result := by
  obtain ⟨stack, blocks⟩ := extractor
  cases stack with
  | nil => exact Except.noConfusion h
  | cons s rest =>
      have hex' : extractor_coalesced ⟨rest, blocks⟩ :=
        ⟨fun t ht => hex.1 t (List.mem_cons_of_mem s ht), hex.2⟩
      exact state_process_event_coalesced (hex.1 s (by simp)) hex' h

/-- The event loop preserves the coalescing invariant. -/
theorem foldlM_process_event_coalesced (events : List (Event × Range)) :
    ∀ {extractor result : TextBlockExtractor},
    extractor_coalesced extractor →
    events.foldlM (fun extractor er =>
      extractor.process_event er.1 er.2) extractor = .ok result →
    extractor_coalesced result := by
  induction events with
  | nil =>
      intro extractor result hex h
      injection h with h
      subst h
      exact hex
  | cons er rest ih =>
      intro extractor result hex h
      rw [List.foldlM_cons] at h
      cases ha : extractor.process_event er.1 er.2 with
      | error e =>
          rw [ha, except_bind_error] at h
          exact Except.noConfusion h
      | ok ex' =>
          rw [ha, except_bind_ok] at h
          exact ih (extractor_process_event_coalesced hex ha) h

/-- A successful event loop yields a coalesced extractor. -/
theorem run_events_coalesced (events : List (Event × Range))
    {result : TextBlockExtractor} (h : run_events events = .ok result) :
    extractor_coalesced result := by
  refine foldlM_process_event_coalesced events ?_ h
  constructor
  · intro s hs
    rw [List.mem_singleton.mp hs]
    trivial
  · intro b hb
    exact absurd hb (List.not_mem_nil b)

/-- C5: in every paragraph block produced by a successful run of the Block
Extractor, no two adjacent `Text` fragments occur — a `Text` event (and a
link fragment fed back through `process_fragment`) whose preceding fragment
is `Text` is concatenated into it by `push_text_fragment` (extending the
merged fragment's range end to the new range's end) rather than pushed as
a new fragment. -/
theorem paragraph_blocks_coalesced (events : List (Event × Range))
    (blocks : List TextBlock) (fragments : List Fragment)
    (h : extract_text_blocks events = .ok blocks)
    (hmem : TextBlock.Text fragments ∈ blocks) :
    Coalesced fragments := by
  unfold extract_text_blocks at h
  cases hr : run_events events with
  | error e =>
      rw [hr, except_bind_error_fn] at h
      exact Except.noConfusion h
  | ok ex =>
      rw [hr, except_bind_ok_fn] at h
      have hex := run_events_coalesced events hr
      obtain ⟨stack, blks⟩ := ex
      have hblocks : blocks = blks := by
        cases stack with
        | nil => exact Except.noConfusion h
        | cons s rest =>
            cases s
            all_goals try exact Except.noConfusion h
            case Blank =>
              cases rest with
              | nil =>
                  injection h with h
                  exact h.symm
              | cons s2 r2 => exact Except.noConfusion h
      exact hex.2 (TextBlock.Text fragments) (hblocks ▸ hmem)

/-- Witness for C5: the blocks extracted from the "\<unnamed\> panicked at"
event stream are coalesced. -/
theorem paragraph_blocks_coalesced_witness :
    Coalesced [(FragmentContent.Code "<unnamed>", ⟨0, 9⟩),
      (FragmentContent.Text " panicked at", ⟨9, 21⟩)] :=
  paragraph_blocks_coalesced unnamed_panicked_events
    [TextBlock.Text [(FragmentContent.Code "<unnamed>", ⟨0, 9⟩),
      (FragmentContent.Text " panicked at", ⟨9, 21⟩)]]
    [(FragmentContent.Code "<unnamed>", ⟨0, 9⟩),
      (FragmentContent.Text " panicked at", ⟨9, 21⟩)]
    rfl (List.mem_singleton.mpr rfl)

end Mumble
